import Mathlib

/-!
Verification of the authoritative game-state logic of a real-time
multiplayer game server (players map, collectible list, movement handler,
collision scan, broadcast addressing), shallowly embedded from the
JavaScript source.  Coordinates are modelled as rationals, scores and
collectible values as integers; the randomness consumed by the server
(`Math.floor(Math.random() * k)` draws) is modelled as explicit inputs.
-/

namespace Game

/-- One draw of server randomness: `rx` stands for
`Math.floor(Math.random() * 600)`, `ry` for
`Math.floor(Math.random() * 440)`, `rv` for
`Math.floor(Math.random() * 5)`. -/
structure Rand where
  rx : ℕ
  ry : ℕ
  rv : ℕ
deriving DecidableEq, Repr

/-- A collectible record, as built by `createCollectible`. -/
structure Collectible where
  x : ℚ
  y : ℚ
  value : ℤ
  id : ℕ
deriving DecidableEq, Repr

/-- A player record, as built on connection. -/
structure Player where
  x : ℚ
  y : ℚ
  score : ℤ
  id : String
deriving DecidableEq, Repr

/-- `createCollectible()`: fresh collectible with randomized position and
value and the next id from the counter; returns the record together with
the incremented counter (`nextCollectibleId++`). -/
def createCollectible (r : Rand) (nextId : ℕ) : Collectible × ℕ :=
  ({ x := (r.rx : ℚ) + 20, y := (r.ry : ℚ) + 20,
     value := (r.rv : ℤ) + 1, id := nextId }, nextId + 1)

/-- The authoritative world state: `players` object, `collectibles`
array, `nextCollectibleId` counter. -/
structure World where
  players : List Player
  collectibles : List Collectible
  nextCollectibleId : ℕ
deriving DecidableEq, Repr

/-- The initial-collectibles loop: `for (let i = 0; i < 3; i++)
collectibles.push(createCollectible())`, with the counter starting at 1. -/
def initCollectibles (rs : ℕ → Rand) : ℕ → List Collectible × ℕ
  | 0 => ([], 1)
  | n + 1 =>
    let (cs, nid) := initCollectibles rs n
    let (c, nid1) := createCollectible (rs n) nid
    (cs ++ [c], nid1)

/-- The world just after server start: no players, three collectibles. -/
def initWorld (rs : ℕ → Rand) : World :=
  let (cs, nid) := initCollectibles rs 3
  { players := [], collectibles := cs, nextCollectibleId := nid }

/-- Lookup `players[sid]`. -/
def findPlayer (ps : List Player) (sid : String) : Option Player :=
  ps.find? (fun p => p.id = sid)

/-- Overwrite the record stored under `sid` (in-place mutation of the
object held in the `players` map). -/
def setPlayer (ps : List Player) (sid : String) (p : Player) : List Player :=
  ps.map (fun q => if q.id = sid then p else q)

/-- `players[socket.id] = newPlayer`: store under the key, overwriting any
existing record with that id, appending otherwise. -/
def upsertPlayer (ps : List Player) (p : Player) : List Player :=
  if ps.any (fun q => q.id = p.id) then setPlayer ps p.id p else ps ++ [p]

/-- The four recognized direction strings of the movement fallback. -/
inductive Direction where
  | up
  | down
  | left
  | right
deriving DecidableEq, Repr

/-- A movement intent as received from a client.  `x?`/`y?` model
`data.x`/`data.y` (`none` = `undefined`); `direction` is `some d` when
`data.direction` is one of the four recognized strings and `none` when it
is `undefined` or unrecognized; `speed?` models `data.speed`. -/
structure MoveData where
  x? : Option ℚ
  y? : Option ℚ
  direction : Option Direction
  speed? : Option ℚ
deriving DecidableEq, Repr

/-- `const speed = data.speed || 4`: the default applies when the field is
absent or `0` (the falsy numeric values of the model). -/
def effSpeed (d : MoveData) : ℚ :=
  match d.speed? with
  | none => 4
  | some s => if s = 0 then 4 else s

/-- The position update of the movement handler: absolute mode when both
`data.x` and `data.y` are present (clamped to `[20,620] × [20,460]`),
otherwise the direction/speed fallback with its one-sided clamps. -/
def updatePos (pos : ℚ × ℚ) (d : MoveData) : ℚ × ℚ :=
  match d.x?, d.y? with
  | some dx, some dy => (max 20 (min 620 dx), max 20 (min 460 dy))
  | _, _ =>
    let speed := effSpeed d
    match d.direction with
    | some .up => (pos.1, max 20 (pos.2 - speed))
    | some .down => (pos.1, min 460 (pos.2 + speed))
    | some .left => (max 20 (pos.1 - speed), pos.2)
    | some .right => (min 620 (pos.1 + speed), pos.2)
    | none => pos

/-- Squared Euclidean distance between a position and a collectible. -/
def sqDist (pos : ℚ × ℚ) (c : Collectible) : ℚ :=
  (pos.1 - c.x) ^ 2 + (pos.2 - c.y) ^ 2

/-- The collision predicate of the server's scan (and of
`Player.collision`): `Math.sqrt((px-cx)^2 + (py-cy)^2) < 20`, expressed
equivalently on the squared distance. -/
def collides (pos : ℚ × ℚ) (c : Collectible) : Bool :=
  sqDist pos c < 400

/-- Addressing mode of an outbound event. -/
inductive Addr where
  | toSender
  | exceptSender
  | all
deriving DecidableEq, Repr

/-- The payloads of the five server→client events. -/
inductive EventMsg where
  | init (id : String) (players : List Player) (collectibles : List Collectible)
  | newPlayer (p : Player)
  | collectibleUpdate (collected : ℕ) (newC : Collectible) (playerId : String) (score : ℤ)
  | playerUpdate (id : String) (x y : ℚ) (score : ℤ)
  | playerDisconnect (id : String)
deriving DecidableEq, Repr

/-- One outbound emission: addressing mode plus payload. -/
structure Emit where
  addr : Addr
  msg : EventMsg
deriving DecidableEq, Repr

/-- The mutable state threaded through the collision scan of one movement
event: the collectibles array, the moving player's score, the id counter,
the number of random draws consumed, and the emissions so far. -/
structure ScanState where
  cols : List Collectible
  score : ℤ
  nid : ℕ
  used : ℕ
  emits : List Emit
deriving Repr

/-- One iteration of the collision loop at array index `k`: if the
collectible at `k` is within the pickup radius of `pos`, add its value to
the score, `splice(k, 1)` it out, `push` a freshly created replacement,
and emit `collectible-update` to everyone. -/
def scanStep (sid : String) (pos : ℚ × ℚ) (rs : ℕ → Rand) (k : ℕ)
    (s : ScanState) : ScanState :=
  match s.cols[k]? with
  | none => s
  | some c =>
    if collides pos c then
      let (newC, nid1) := createCollectible (rs s.used) s.nid
      { cols := s.cols.eraseIdx k ++ [newC],
        score := s.score + c.value,
        nid := nid1,
        used := s.used + 1,
        emits := s.emits ++
          [⟨Addr.all, EventMsg.collectibleUpdate c.id newC sid (s.score + c.value)⟩] }
    else s

/-- The descending collision loop from index `k` down to `0`. -/
def scanFrom (sid : String) (pos : ℚ × ℚ) (rs : ℕ → Rand) :
    ℕ → ScanState → ScanState
  | 0, s => scanStep sid pos rs 0 s
  | k + 1, s => scanFrom sid pos rs k (scanStep sid pos rs (k + 1) s)

/-- `for (let i = collectibles.length - 1; i >= 0; i--) …`: run the scan
starting at the last index; an empty array is left untouched. -/
def runScan (sid : String) (pos : ℚ × ℚ) (rs : ℕ → Rand)
    (s : ScanState) : ScanState :=
  match s.cols.length with
  | 0 => s
  | n + 1 => scanFrom sid pos rs n s

/-- The `movement` handler: no-op when the sender has no player record;
otherwise update/clamp the position, run the collision scan on the updated
position, store the mutated player, and broadcast `player-update` to all
other connections. -/
def handleMovement (sid : String) (d : MoveData) (rs : ℕ → Rand)
    (w : World) : World × List Emit :=
  match findPlayer w.players sid with
  | none => (w, [])
  | some p =>
    let pos := updatePos (p.x, p.y) d
    let s1 := runScan sid pos rs
      { cols := w.collectibles, score := p.score,
        nid := w.nextCollectibleId, used := 0, emits := [] }
    let p1 : Player := { x := pos.1, y := pos.2, score := s1.score, id := p.id }
    ({ players := setPlayer w.players sid p1,
       collectibles := s1.cols,
       nextCollectibleId := s1.nid },
     s1.emits ++ [⟨Addr.exceptSender, EventMsg.playerUpdate sid pos.1 pos.2 s1.score⟩])

/-- The `connection` handler: create a player with randomized in-bounds
position and zero score, store it, send `init` (full snapshot, including
the new player) to the new connection only, and `new-player` to all other
connections (`socket.broadcast.emit`). -/
def handleConnect (sid : String) (r : Rand) (w : World) : World × List Emit :=
  let newPlayer : Player :=
    { x := (r.rx : ℚ) + 20, y := (r.ry : ℚ) + 20, score := 0, id := sid }
  let players1 := upsertPlayer w.players newPlayer
  ({ players := players1, collectibles := w.collectibles,
     nextCollectibleId := w.nextCollectibleId },
   [⟨Addr.toSender, EventMsg.init sid players1 w.collectibles⟩,
    ⟨Addr.exceptSender, EventMsg.newPlayer newPlayer⟩])

/-- The `disconnect` handler: `delete players[socket.id]` and broadcast
`player-disconnect` to all other connections (`socket.broadcast.emit`). -/
def handleDisconnect (sid : String) (w : World) : World × List Emit :=
  ({ players := w.players.filter (fun p => ¬ p.id = sid),
     collectibles := w.collectibles,
     nextCollectibleId := w.nextCollectibleId },
   [⟨Addr.exceptSender, EventMsg.playerDisconnect sid⟩])

/-- An inbound event, carrying the randomness its handler consumes. -/
inductive GEvent where
  | connect (sid : String) (r : Rand)
  | movement (sid : String) (d : MoveData) (rs : ℕ → Rand)
  | disconnect (sid : String)

/-- Dispatch one inbound event to its handler. -/
def stepEvent (e : GEvent) (w : World) : World × List Emit :=
  match e with
  | .connect sid r => handleConnect sid r w
  | .movement sid d rs => handleMovement sid d rs w
  | .disconnect sid => handleDisconnect sid w

/-- Run a sequence of inbound events, keeping only the resulting world. -/
def runEvents (es : List GEvent) (w : World) : World :=
  es.foldl (fun w e => (stepEvent e w).1) w

/-- The ids of the collectibles collected during an event, read off the
`collectible-update` emissions. -/
def collectedIds (l : List Emit) : List ℕ :=
  l.filterMap (fun e =>
    match e.msg with
    | EventMsg.collectibleUpdate cid _ _ _ => some cid
    | _ => none)

/-- Iterated `createCollectible` calls threading the id counter, as the
process performs over its lifetime. -/
def createSeq (rs : ℕ → Rand) (nid : ℕ) : ℕ → List Collectible × ℕ
  | 0 => ([], nid)
  | n + 1 =>
    let (cs, k) := createSeq rs nid n
    let (c, k1) := createCollectible (rs n) k
    (cs ++ [c], k1)

/-- Every collectible in the world carries a positive value (as every
record produced by `createCollectible` does). -/
def ValuesPos (w : World) : Prop := ∀ c ∈ w.collectibles, 1 ≤ c.value

/-- Every collectible in the scan state carries a positive value. -/
def ScanValuesPos (s : ScanState) : Prop := ∀ c ∈ s.cols, 1 ≤ c.value

/-- Every stored collectible's id is below the id counter. -/
def IdsLt (w : World) : Prop :=
  ∀ c ∈ w.collectibles, c.id < w.nextCollectibleId

/-- A fixed randomness stream used in concrete test scenarios. -/
def rsFix : ℕ → Rand := fun _ => ⟨7, 9, 2⟩

/-- Test world: one player at (100, 300), no collectibles. -/
def wA : World :=
  { players := [⟨100, 300, 0, "a"⟩], collectibles := [], nextCollectibleId := 5 }

/-- Test collectible at (605, 20) with value 3. -/
def colC : Collectible := ⟨605, 20, 3, 1⟩

/-- Test world: one player at (100, 300), one collectible. -/
def wB : World :=
  { players := [⟨100, 300, 0, "a"⟩], collectibles := [colC], nextCollectibleId := 2 }

/-! ## Helper lemmas -/

theorem findPlayer_id {ps : List Player} {sid : String} {p : Player}
    (h : findPlayer ps sid = some p) : p.id = sid := by
  have := List.find?_some h
  simpa using this

theorem findPlayer_setPlayer_self {ps : List Player} {sid : String} {p q : Player}
    (hp : findPlayer ps sid = some p) (hid : q.id = sid) :
    findPlayer (setPlayer ps sid q) sid = some q := by
  induction ps with
  | nil => simp [findPlayer] at hp
  | cons a t ih =>
    by_cases ha : a.id = sid
    · simp [findPlayer, setPlayer, ha, hid]
    · unfold findPlayer setPlayer at *
      simp only [List.map_cons, if_neg ha]
      rw [List.find?_cons_of_neg _ (by simpa using ha)]
      rw [List.find?_cons_of_neg _ (by simpa using ha)] at hp
      exact ih hp

theorem updatePos_bounds (pos : ℚ × ℚ) (d : MoveData)
    (hx1 : 20 ≤ pos.1) (hx2 : pos.1 ≤ 620) (hy1 : 20 ≤ pos.2) (hy2 : pos.2 ≤ 460)
    (hs : d.x? = none ∨ d.y? = none → 0 ≤ effSpeed d) :
    20 ≤ (updatePos pos d).1 ∧ (updatePos pos d).1 ≤ 620 ∧
    20 ≤ (updatePos pos d).2 ∧ (updatePos pos d).2 ≤ 460 := by
  unfold updatePos
  rcases hdx : d.x? with _ | dx <;> rcases hdy : d.y? with _ | dy <;>
    simp only []
  case some.some =>
    refine ⟨le_max_left _ _, max_le (by norm_num) (min_le_left _ _),
      le_max_left _ _, max_le (by norm_num) (min_le_left _ _)⟩
  all_goals {
    have hs4 : 0 ≤ effSpeed d := by
      first
        | exact hs (Or.inl hdx)
        | exact hs (Or.inr hdy)
    rcases hdir : d.direction with _ | dir
    · exact ⟨hx1, hx2, hy1, hy2⟩
    · cases dir <;>
      simp only [] <;>
      refine ⟨?_, ?_, ?_, ?_⟩ <;>
      first
        | exact le_max_left _ _
        | exact min_le_left _ _
        | assumption
        | exact max_le (by norm_num) (by linarith)
        | exact le_min (by norm_num) (by linarith)
  }

theorem scanStep_cols_length (sid : String) (pos : ℚ × ℚ) (rs : ℕ → Rand)
    (k : ℕ) (s : ScanState) :
    (scanStep sid pos rs k s).cols.length = s.cols.length := by
  unfold scanStep
  cases h : s.cols[k]? with
  | none => rfl
  | some c =>
    have hk : k < s.cols.length := (List.getElem?_eq_some.mp h).1
    by_cases hc : collides pos c
    · simp [hc, List.length_eraseIdx, if_pos hk]
      omega
    · simp [hc]

theorem scanFrom_cols_length (sid : String) (pos : ℚ × ℚ) (rs : ℕ → Rand) :
    ∀ (k : ℕ) (s : ScanState),
      (scanFrom sid pos rs k s).cols.length = s.cols.length := by
  intro k
  induction k with
  | zero => intro s; exact scanStep_cols_length sid pos rs 0 s
  | succ k ih =>
    intro s
    unfold scanFrom
    rw [ih]
    exact scanStep_cols_length sid pos rs (k + 1) s

theorem runScan_cols_length (sid : String) (pos : ℚ × ℚ) (rs : ℕ → Rand)
    (s : ScanState) :
    (runScan sid pos rs s).cols.length = s.cols.length := by
  unfold runScan
  cases h : s.cols.length with
  | zero => simp [h]
  | succ n => simp only [h]; rw [scanFrom_cols_length, h]

theorem stepEvent_cols_length (e : GEvent) (w : World) :
    (stepEvent e w).1.collectibles.length = w.collectibles.length := by
  cases e with
  | connect sid r => rfl
  | disconnect sid => rfl
  | movement sid d rs =>
    show (handleMovement sid d rs w).1.collectibles.length = _
    unfold handleMovement
    cases h : findPlayer w.players sid with
    | none => rfl
    | some p => exact runScan_cols_length _ _ _ _

theorem initWorld_cols_length (rs : ℕ → Rand) :
    (initWorld rs).collectibles.length = 3 := by
  simp [initWorld, initCollectibles, createCollectible]

theorem runEvents_cols_length (es : List GEvent) (w : World) :
    (runEvents es w).collectibles.length = w.collectibles.length := by
  induction es generalizing w with
  | nil => rfl
  | cons e es ih =>
    show (runEvents es (stepEvent e w).1).collectibles.length = _
    rw [ih, stepEvent_cols_length]

theorem handleMovement_found (sid : String) (d : MoveData) (rs : ℕ → Rand)
    (w : World) (p : Player) (hp : findPlayer w.players sid = some p) :
    handleMovement sid d rs w =
      (let pos := updatePos (p.x, p.y) d
       let s1 := runScan sid pos rs
         { cols := w.collectibles, score := p.score,
           nid := w.nextCollectibleId, used := 0, emits := [] }
       ({ players := setPlayer w.players sid
            { x := pos.1, y := pos.2, score := s1.score, id := p.id },
          collectibles := s1.cols, nextCollectibleId := s1.nid },
        s1.emits ++
          [⟨Addr.exceptSender, EventMsg.playerUpdate sid pos.1 pos.2 s1.score⟩])) := by
  unfold handleMovement
  rw [hp]

/-! ## Claim theorems -/

/-- C1 (amended): for a connected player whose stored position is within
the world bounds, a movement intent leaves the player's position within
`20 ≤ x ≤ 620` and `20 ≤ y ≤ 460` — unconditionally for absolute intents
of any magnitude (both axes are clamped on both sides, whatever the speed
field carries), and for relative-mode intents (x and y not both present)
provided the effective speed (the speed field after the `|| 4` default)
is nonnegative. -/
theorem movement_position_clamped (sid : String) (d : MoveData) (rs : ℕ → Rand)
    (w : World) (p q : Player)
    (hp : findPlayer w.players sid = some p)
    (hx1 : 20 ≤ p.x) (hx2 : p.x ≤ 620) (hy1 : 20 ≤ p.y) (hy2 : p.y ≤ 460)
    (hs : d.x? = none ∨ d.y? = none → 0 ≤ effSpeed d)
    (hq : findPlayer (handleMovement sid d rs w).1.players sid = some q) :
    20 ≤ q.x ∧ q.x ≤ 620 ∧ 20 ≤ q.y ∧ q.y ≤ 460 := by
  have hid : p.id = sid := findPlayer_id hp
  rw [handleMovement_found sid d rs w p hp] at hq
  simp only [] at hq
  rw [findPlayer_setPlayer_self hp (by simpa using hid)] at hq
  obtain ⟨rfl⟩ := hq
  exact updatePos_bounds (p.x, p.y) d hx1 hx2 hy1 hy2 hs

/-- Witness for C1: a concrete in-bounds player and a concrete relative
intent with nonnegative speed land in bounds. -/
theorem movement_position_clamped_witness :
    20 ≤ (Player.mk 100 297 0 "a").x ∧ (Player.mk 100 297 0 "a").x ≤ 620 ∧
    20 ≤ (Player.mk 100 297 0 "a").y ∧ (Player.mk 100 297 0 "a").y ≤ 460 :=
  movement_position_clamped "a" ⟨none, none, some Direction.up, some 3⟩ rsFix wA
    ⟨100, 300, 0, "a"⟩ ⟨100, 297, 0, "a"⟩
    (by decide) (by norm_num) (by norm_num) (by norm_num) (by norm_num)
    (fun _ => by norm_num [effSpeed])
    (by simp [handleMovement, wA, findPlayer, runScan, updatePos, effSpeed, setPlayer]
        norm_num [max_def])

/-- C1 counterexample: the claim as stated (bounds hold whatever the sign
of the intent's fields) fails — a relative `up` intent with speed `-500`
moves the in-bounds player at (100, 300) to y = 800 > 460, because the
fallback branch clamps only one side of each axis. -/
theorem movement_position_clamped_cex :
    (findPlayer (handleMovement "a" ⟨none, none, some Direction.up, some (-500)⟩
        rsFix wA).1.players "a").map Player.y = some 800 ∧
    ¬ ((800 : ℚ) ≤ 460) := by
  constructor
  · simp [handleMovement, wA, findPlayer, runScan, updatePos, effSpeed, setPlayer]
    norm_num [max_def]
  · norm_num

/-- C2: across any sequence of connect/movement/disconnect events starting
from the initial world, the number of active collectibles after each event
handler completes equals the initial count of 3: every pickup removes one
collectible and appends exactly one replacement. -/
theorem collectible_count_constant (rs : ℕ → Rand) (es : List GEvent) :
    (runEvents es (initWorld rs)).collectibles.length = 3 := by
  rw [runEvents_cols_length, initWorld_cols_length]

theorem runScan_single (sid : String) (pos : ℚ × ℚ) (rs : ℕ → Rand)
    (c : Collectible) (score : ℤ) (nid : ℕ) :
    runScan sid pos rs ⟨[c], score, nid, 0, []⟩ =
      if collides pos c then
        ⟨[(createCollectible (rs 0) nid).1], score + c.value, nid + 1, 1,
         [⟨Addr.all, EventMsg.collectibleUpdate c.id (createCollectible (rs 0) nid).1
            sid (score + c.value)⟩]⟩
      else ⟨[c], score, nid, 0, []⟩ := by
  by_cases h : collides pos c <;>
    simp [runScan, scanFrom, scanStep, h, createCollectible, List.eraseIdx]

theorem collides_iff_sqDist_lt (pos : ℚ × ℚ) (c : Collectible) :
    collides pos c = true ↔ sqDist pos c < 400 := by
  simp [collides]

/-- C3: a collectible is collected iff the Euclidean distance between the
player's post-clamp position and the collectible is strictly below 20
(distance exactly 20 is not a pickup), and the scan is evaluated at the
clamped position `updatePos (p.x, p.y) d`, not at the raw intent. -/
theorem pickup_iff_distance_lt :
    (∀ (pos : ℚ × ℚ) (c : Collectible),
      collides pos c = true ↔
        Real.sqrt (((pos.1 : ℝ) - (c.x : ℝ)) ^ 2 + ((pos.2 : ℝ) - (c.y : ℝ)) ^ 2) < 20)
    ∧ (∀ (pos : ℚ × ℚ) (c : Collectible), sqDist pos c = 400 → collides pos c = false)
    ∧ (∀ (sid : String) (d : MoveData) (rs : ℕ → Rand) (w : World)
        (p : Player) (c : Collectible) (q : Player),
        findPlayer w.players sid = some p → w.collectibles = [c] → 1 ≤ c.value →
        findPlayer (handleMovement sid d rs w).1.players sid = some q →
        (q.score = p.score + c.value ↔ collides (updatePos (p.x, p.y) d) c = true)) := by
  have hbridge : ∀ (pos : ℚ × ℚ) (c : Collectible),
      collides pos c = true ↔
        Real.sqrt (((pos.1 : ℝ) - (c.x : ℝ)) ^ 2 + ((pos.2 : ℝ) - (c.y : ℝ)) ^ 2) < 20 := by
    intro pos c
    rw [collides_iff_sqDist_lt]
    rw [Real.sqrt_lt' (by norm_num : (0 : ℝ) < 20)]
    have hcast : ((pos.1 : ℝ) - (c.x : ℝ)) ^ 2 + ((pos.2 : ℝ) - (c.y : ℝ)) ^ 2
        = ((sqDist pos c : ℚ) : ℝ) := by
      unfold sqDist
      push_cast
      ring
    rw [hcast]
    constructor
    · intro h
      calc ((sqDist pos c : ℚ) : ℝ) < ((400 : ℚ) : ℝ) := by exact_mod_cast h
        _ = (20 : ℝ) ^ 2 := by norm_num
    · intro h
      have : ((sqDist pos c : ℚ) : ℝ) < ((400 : ℚ) : ℝ) := by
        calc ((sqDist pos c : ℚ) : ℝ) < (20 : ℝ) ^ 2 := h
          _ = ((400 : ℚ) : ℝ) := by norm_num
      exact_mod_cast this
  refine ⟨hbridge, ?_, ?_⟩
  · intro pos c h
    simp [collides, h]
  · intro sid d rs w p c q hp hcols hv hq
    rw [handleMovement_found sid d rs w p hp] at hq
    simp only [hcols] at hq
    rw [runScan_single] at hq
    have hid : p.id = sid := findPlayer_id hp
    by_cases hc : collides (updatePos (p.x, p.y) d) c
    · rw [if_pos hc] at hq
      rw [findPlayer_setPlayer_self hp (by simpa using hid)] at hq
      obtain ⟨rfl⟩ := hq
      simpa using hc
    · rw [if_neg hc] at hq
      rw [findPlayer_setPlayer_self hp (by simpa using hid)] at hq
      obtain ⟨rfl⟩ := hq
      simp only []
      constructor
      · intro habs
        exfalso
        omega
      · intro habs
        exact absurd habs hc

/-- Witness for C3: the player at (100, 300) moving by absolute intent to
(600, 20) picks up the collectible at (605, 20) (distance 5 < 20) and its
score becomes exactly 0 + 3. -/
theorem pickup_iff_distance_lt_witness :
    (Player.mk 600 20 3 "a").score = (Player.mk 100 300 0 "a").score + colC.value ↔
      collides (updatePos ((100 : ℚ), (300 : ℚ)) ⟨some 600, some 20, none, none⟩) colC = true :=
  pickup_iff_distance_lt.2.2 "a" ⟨some 600, some 20, none, none⟩ rsFix wB
    ⟨100, 300, 0, "a"⟩ colC ⟨600, 20, 3, "a"⟩
    (by decide) rfl (by decide)
    (by simp [handleMovement, wB, findPlayer, runScan, scanFrom, scanStep, updatePos,
          setPlayer, colC, collides, sqDist, createCollectible, rsFix, List.eraseIdx]
        norm_num [max_def, min_def])

theorem scanStep_values_score (sid : String) (pos : ℚ × ℚ) (rs : ℕ → Rand)
    (k : ℕ) (s : ScanState) (h : ScanValuesPos s) :
    ScanValuesPos (scanStep sid pos rs k s) ∧
      s.score ≤ (scanStep sid pos rs k s).score := by
  unfold scanStep
  cases hk : s.cols[k]? with
  | none => exact ⟨h, le_refl _⟩
  | some c =>
    have hmem : c ∈ s.cols := by
      obtain ⟨hlt, hget⟩ := List.getElem?_eq_some.mp hk
      exact hget ▸ List.getElem_mem hlt
    by_cases hc : collides pos c
    · simp only [if_pos hc]
      constructor
      · intro x hx
        rcases List.mem_append.mp hx with hx | hx
        · exact h x ((List.eraseIdx_sublist _ _).mem hx)
        · simp only [List.mem_singleton] at hx
          subst hx
          simp [createCollectible]
      · have := h c hmem
        linarith
    · simp only [if_neg hc]
      exact ⟨h, le_refl _⟩

theorem scanFrom_values_score (sid : String) (pos : ℚ × ℚ) (rs : ℕ → Rand) :
    ∀ (k : ℕ) (s : ScanState), ScanValuesPos s →
      ScanValuesPos (scanFrom sid pos rs k s) ∧
        s.score ≤ (scanFrom sid pos rs k s).score := by
  intro k
  induction k with
  | zero => intro s h; exact scanStep_values_score sid pos rs 0 s h
  | succ k ih =>
    intro s h
    unfold scanFrom
    obtain ⟨h1, h2⟩ := scanStep_values_score sid pos rs (k + 1) s h
    obtain ⟨h3, h4⟩ := ih _ h1
    exact ⟨h3, le_trans h2 h4⟩

theorem runScan_values_score (sid : String) (pos : ℚ × ℚ) (rs : ℕ → Rand)
    (s : ScanState) (h : ScanValuesPos s) :
    ScanValuesPos (runScan sid pos rs s) ∧
      s.score ≤ (runScan sid pos rs s).score := by
  unfold runScan
  cases hl : s.cols.length with
  | zero => exact ⟨h, le_refl _⟩
  | succ n => exact scanFrom_values_score sid pos rs n s h

theorem findPlayer_setPlayer_ne {ps : List Player} {sid sid0 : String} {p1 : Player}
    (hne : sid0 ≠ sid) (hid : p1.id = sid) :
    findPlayer (setPlayer ps sid p1) sid0 = findPlayer ps sid0 := by
  induction ps with
  | nil => rfl
  | cons a t ih =>
    unfold findPlayer setPlayer at *
    simp only [List.map_cons]
    by_cases ha : a.id = sid
    · rw [if_pos ha]
      rw [List.find?_cons_of_neg _ (by simp [hid]; exact fun h => hne h.symm)]
      rw [List.find?_cons_of_neg _ (by simp [ha]; exact fun h => hne h.symm)]
      exact ih
    · rw [if_neg ha]
      by_cases ha0 : a.id = sid0
      · rw [List.find?_cons_of_pos _ (by simpa using ha0),
          List.find?_cons_of_pos _ (by simpa using ha0)]
      · rw [List.find?_cons_of_neg _ (by simpa using ha0),
          List.find?_cons_of_neg _ (by simpa using ha0)]
        exact ih

theorem findPlayer_filter_ne {ps : List Player} {sid sid0 : String}
    (hne : sid0 ≠ sid) :
    findPlayer (ps.filter fun p => ¬ p.id = sid) sid0 = findPlayer ps sid0 := by
  induction ps with
  | nil => rfl
  | cons a t ih =>
    unfold findPlayer at *
    by_cases ha : a.id = sid
    · rw [List.filter_cons_of_neg (by simpa using ha)]
      rw [List.find?_cons_of_neg _ (by simp [ha]; exact fun h => hne h.symm)]
      exact ih
    · rw [List.filter_cons_of_pos (by simpa using ha)]
      by_cases ha0 : a.id = sid0
      · rw [List.find?_cons_of_pos _ (by simpa using ha0),
          List.find?_cons_of_pos _ (by simpa using ha0)]
      · rw [List.find?_cons_of_neg _ (by simpa using ha0),
          List.find?_cons_of_neg _ (by simpa using ha0)]
        exact ih

theorem findPlayer_filter_self (ps : List Player) (sid : String) :
    findPlayer (ps.filter fun p => ¬ p.id = sid) sid = none := by
  rw [findPlayer, List.find?_eq_none]
  intro x hx
  obtain ⟨-, hpx⟩ := List.mem_filter.mp hx
  simpa using hpx

theorem findPlayer_upsert_self (ps : List Player) (p : Player) :
    findPlayer (upsertPlayer ps p) p.id = some p := by
  unfold upsertPlayer
  by_cases hany : ps.any (fun q => q.id = p.id)
  · rw [if_pos hany]
    obtain ⟨x, hx, hpx⟩ := List.any_eq_true.mp hany
    have hfind : (findPlayer ps p.id).isSome := by
      rw [findPlayer, List.find?_isSome]
      exact ⟨x, hx, by simpa using hpx⟩
    obtain ⟨q, hq⟩ := Option.isSome_iff_exists.mp hfind
    exact findPlayer_setPlayer_self hq rfl
  · rw [if_neg hany]
    rw [findPlayer, List.find?_append]
    have hnone : ps.find? (fun q => q.id = p.id) = none := by
      rw [List.find?_eq_none]
      intro x hx hpx
      exact hany (List.any_eq_true.mpr ⟨x, hx, hpx⟩)
    rw [hnone]
    simp [List.find?]

theorem findPlayer_upsert_ne {ps : List Player} {p : Player} {sid0 : String}
    (hne : sid0 ≠ p.id) :
    findPlayer (upsertPlayer ps p) sid0 = findPlayer ps sid0 := by
  unfold upsertPlayer
  by_cases hany : ps.any (fun q => q.id = p.id)
  · rw [if_pos hany]
    exact findPlayer_setPlayer_ne hne rfl
  · rw [if_neg hany]
    rw [findPlayer, List.find?_append]
    have hlast : List.find? (fun q => q.id = sid0) [p] = none := by
      rw [List.find?_cons_of_neg _
        (by simp only [decide_eq_true_eq]; exact fun h => hne h.symm)]
      rfl
    rw [hlast]
    simp [findPlayer]

theorem initWorld_values_pos (rs : ℕ → Rand) : ValuesPos (initWorld rs) := by
  intro c hc
  simp [initWorld, initCollectibles, createCollectible] at hc
  rcases hc with hc | hc | hc <;> subst hc <;> simp

theorem stepEvent_values_pos (e : GEvent) (w : World) (h : ValuesPos w) :
    ValuesPos (stepEvent e w).1 := by
  cases e with
  | connect sid r => exact h
  | disconnect sid => exact h
  | movement sid d rs =>
    show ValuesPos (handleMovement sid d rs w).1
    unfold handleMovement
    cases hp : findPlayer w.players sid with
    | none => exact h
    | some p =>
      intro c hc
      exact (runScan_values_score sid _ rs _ (fun c hc => h c hc)).1 c hc

theorem runEvents_values_pos (es : List GEvent) (w : World) (h : ValuesPos w) :
    ValuesPos (runEvents es w) := by
  induction es generalizing w with
  | nil => exact h
  | cons e es ih =>
    show ValuesPos (runEvents es (stepEvent e w).1)
    exact ih _ (stepEvent_values_pos e w h)

theorem findPlayer_handleMovement_ne {sid sid0 : String} (d : MoveData)
    (rs : ℕ → Rand) {w : World} {p0 : Player}
    (hfp : findPlayer w.players sid = some p0) (hne : sid0 ≠ sid) :
    findPlayer (handleMovement sid d rs w).1.players sid0 =
      findPlayer w.players sid0 := by
  rw [handleMovement_found sid d rs w p0 hfp]
  simp only []
  apply findPlayer_setPlayer_ne hne
  show p0.id = sid
  exact findPlayer_id hfp

/-- C4: a player's score starts at 0 on connection; along any reachable
world, no event decreases any player's score (with connect events carrying
fresh session ids, as the transport guarantees); and each single score
change of the collision scan adds exactly the value of one collectible
within the pickup radius of the scanned position. -/
theorem score_monotone_exact :
    (∀ (sid : String) (r : Rand) (w : World),
      findPlayer (handleConnect sid r w).1.players sid =
        some ⟨(r.rx : ℚ) + 20, (r.ry : ℚ) + 20, 0, sid⟩)
    ∧ (∀ (rs : ℕ → Rand) (es : List GEvent) (e : GEvent) (sid : String) (p q : Player),
      (∀ s0 r0, e = GEvent.connect s0 r0 →
        findPlayer (runEvents es (initWorld rs)).players s0 = none) →
      findPlayer (runEvents es (initWorld rs)).players sid = some p →
      findPlayer (stepEvent e (runEvents es (initWorld rs))).1.players sid = some q →
      p.score ≤ q.score)
    ∧ (∀ (sid : String) (pos : ℚ × ℚ) (rs : ℕ → Rand) (k : ℕ) (s : ScanState),
      (scanStep sid pos rs k s).score = s.score ∨
        ∃ c ∈ s.cols, collides pos c = true ∧
          (scanStep sid pos rs k s).score = s.score + c.value) := by
  refine ⟨?_, ?_, ?_⟩
  · intro sid r w
    exact findPlayer_upsert_self w.players _
  · intro rs es e sid p q hfresh hp hq
    have hv : ValuesPos (runEvents es (initWorld rs)) :=
      runEvents_values_pos _ _ (initWorld_values_pos rs)
    cases e with
    | connect s0 r =>
      have hnone := hfresh s0 r rfl
      by_cases hix : sid = s0
      · subst hix
        rw [hp] at hnone
        cases hnone
      · have heq : findPlayer (stepEvent (GEvent.connect s0 r)
            (runEvents es (initWorld rs))).1.players sid =
            findPlayer (runEvents es (initWorld rs)).players sid :=
          findPlayer_upsert_ne (by simpa using hix)
        rw [heq, hp] at hq
        obtain ⟨rfl⟩ := hq
        exact le_refl _
    | movement s0 d mrs =>
      cases hfp : findPlayer (runEvents es (initWorld rs)).players s0 with
      | none =>
        have heq : stepEvent (GEvent.movement s0 d mrs) (runEvents es (initWorld rs)) =
            (runEvents es (initWorld rs), []) := by
          show handleMovement s0 d mrs _ = _
          unfold handleMovement
          rw [hfp]
        rw [heq, hp] at hq
        obtain ⟨rfl⟩ := hq
        exact le_refl _
      | some p0 =>
        have hstep : stepEvent (GEvent.movement s0 d mrs) (runEvents es (initWorld rs)) =
            handleMovement s0 d mrs (runEvents es (initWorld rs)) := rfl
        by_cases hix : sid = s0
        · subst hix
          rw [hstep, handleMovement_found sid d mrs _ p0 hfp] at hq
          simp only [] at hq
          rw [hp] at hfp
          obtain ⟨rfl⟩ := hfp
          have hid : p.id = sid := findPlayer_id hp
          rw [findPlayer_setPlayer_self hp (by simpa using hid)] at hq
          obtain ⟨rfl⟩ := hq
          exact (runScan_values_score sid _ mrs _ (fun c hc => hv c hc)).2
        · rw [hstep, findPlayer_handleMovement_ne d mrs hfp hix, hp] at hq
          obtain ⟨rfl⟩ := hq
          exact le_refl _
    | disconnect s0 =>
      by_cases hix : sid = s0
      · subst hix
        have : findPlayer (stepEvent (GEvent.disconnect sid)
            (runEvents es (initWorld rs))).1.players sid = none :=
          findPlayer_filter_self _ _
        rw [this] at hq
        cases hq
      · have heq : findPlayer (stepEvent (GEvent.disconnect s0)
            (runEvents es (initWorld rs))).1.players sid =
            findPlayer (runEvents es (initWorld rs)).players sid :=
          findPlayer_filter_ne (by simpa using hix)
        rw [heq, hp] at hq
        obtain ⟨rfl⟩ := hq
        exact le_refl _
  · intro sid pos rs k s
    unfold scanStep
    cases hk : s.cols[k]? with
    | none => exact Or.inl rfl
    | some c =>
      have hmem : c ∈ s.cols := by
        obtain ⟨hlt, hget⟩ := List.getElem?_eq_some.mp hk
        exact hget ▸ List.getElem_mem hlt
      by_cases hc : collides pos c
      · exact Or.inr ⟨c, hmem, hc, by simp [hc]⟩
      · exact Or.inl (by simp [hc])

/-- Witness for C4: after connecting player "a", a disconnect event for an
absent id "b" leaves the score of "a" unchanged (0 ≤ 0). -/
theorem score_monotone_exact_witness :
    (Player.mk (((7 : ℕ) : ℚ) + 20) (((9 : ℕ) : ℚ) + 20) 0 "a").score ≤
      (Player.mk (((7 : ℕ) : ℚ) + 20) (((9 : ℕ) : ℚ) + 20) 0 "a").score :=
  score_monotone_exact.2.1 rsFix [GEvent.connect "a" ⟨7, 9, 2⟩] (GEvent.disconnect "b")
    "a" ⟨((7 : ℕ) : ℚ) + 20, ((9 : ℕ) : ℚ) + 20, 0, "a"⟩
    ⟨((7 : ℕ) : ℚ) + 20, ((9 : ℕ) : ℚ) + 20, 0, "a"⟩
    (fun _ _ h => nomatch h) rfl rfl

theorem createSeq_snd (rs : ℕ → Rand) (nid : ℕ) :
    ∀ n, (createSeq rs nid n).2 = nid + n := by
  intro n
  induction n with
  | zero => rfl
  | succ n ih =>
    show ((createSeq rs nid n).1 ++ _, (createSeq rs nid n).2 + 1).2 = _
    rw [ih]
    omega

theorem createSeq_ids (rs : ℕ → Rand) (nid : ℕ) :
    ∀ n, (createSeq rs nid n).1.map (fun c => c.id) = List.range' nid n := by
  intro n
  induction n with
  | zero => rfl
  | succ n ih =>
    show ((createSeq rs nid n).1 ++
      [(createCollectible (rs n) (createSeq rs nid n).2).1]).map (fun c => c.id) = _
    rw [List.map_append, ih, List.range'_concat]
    simp [createCollectible, createSeq_snd]

/-- C5: every `createCollectible` call returns the current counter value
as the new collectible's id and increments the counter by one, so the ids
issued by successive calls over the process lifetime are strictly
increasing and pairwise distinct; the connect and disconnect handlers
never touch the counter, and each scan step changes it only through a
`createCollectible` call (by exactly one per pickup). -/
theorem collectible_ids_strictly_increasing :
    (∀ (r : Rand) (nid : ℕ),
      (createCollectible r nid).1.id = nid ∧ (createCollectible r nid).2 = nid + 1)
    ∧ (∀ (rs : ℕ → Rand) (nid n : ℕ),
      ((createSeq rs nid n).1.map (fun c => c.id)).Pairwise (· < ·))
    ∧ (∀ (sid : String) (r : Rand) (w : World),
      (handleConnect sid r w).1.nextCollectibleId = w.nextCollectibleId)
    ∧ (∀ (sid : String) (w : World),
      (handleDisconnect sid w).1.nextCollectibleId = w.nextCollectibleId)
    ∧ (∀ (sid : String) (pos : ℚ × ℚ) (rs : ℕ → Rand) (k : ℕ) (s : ScanState),
      (scanStep sid pos rs k s).nid = s.nid ∨
        (scanStep sid pos rs k s).nid = (createCollectible (rs s.used) s.nid).2) := by
  refine ⟨?_, ?_, ?_, ?_, ?_⟩
  · intro r nid
    exact ⟨rfl, rfl⟩
  · intro rs nid n
    rw [createSeq_ids]
    exact List.pairwise_lt_range' nid n
  · intro sid r w
    rfl
  · intro sid w
    rfl
  · intro sid pos rs k s
    unfold scanStep
    cases hk : s.cols[k]? with
    | none => exact Or.inl rfl
    | some c =>
      by_cases hc : collides pos c
      · exact Or.inr (by simp [hc])
      · exact Or.inl (by simp [hc])

theorem scanStep_emits_shape (sid : String) (pos : ℚ × ℚ) (rs : ℕ → Rand)
    (k : ℕ) (s : ScanState) :
    ∀ e ∈ (scanStep sid pos rs k s).emits, e ∈ s.emits ∨
      (e.addr = Addr.all ∧
        ∃ cid c sc, e.msg = EventMsg.collectibleUpdate cid c sid sc) := by
  unfold scanStep
  cases hk : s.cols[k]? with
  | none => exact fun e he => Or.inl he
  | some c =>
    by_cases hc : collides pos c
    · intro e he
      simp only [hc, if_true] at he
      rcases List.mem_append.mp he with he | he
      · exact Or.inl he
      · simp only [List.mem_singleton] at he
        subst he
        exact Or.inr ⟨rfl, c.id, _, _, rfl⟩
    · intro e he
      simp only [hc, if_false] at he
      exact Or.inl he

theorem scanFrom_emits_shape (sid : String) (pos : ℚ × ℚ) (rs : ℕ → Rand) :
    ∀ (k : ℕ) (s : ScanState),
      ∀ e ∈ (scanFrom sid pos rs k s).emits, e ∈ s.emits ∨
        (e.addr = Addr.all ∧
          ∃ cid c sc, e.msg = EventMsg.collectibleUpdate cid c sid sc) := by
  intro k
  induction k with
  | zero => exact fun s => scanStep_emits_shape sid pos rs 0 s
  | succ k ih =>
    intro s e he
    rcases ih (scanStep sid pos rs (k + 1) s) e he with h | h
    · exact scanStep_emits_shape sid pos rs (k + 1) s e h
    · exact Or.inr h

theorem runScan_emits_shape (sid : String) (pos : ℚ × ℚ) (rs : ℕ → Rand)
    (s : ScanState) :
    ∀ e ∈ (runScan sid pos rs s).emits, e ∈ s.emits ∨
      (e.addr = Addr.all ∧
        ∃ cid c sc, e.msg = EventMsg.collectibleUpdate cid c sid sc) := by
  unfold runScan
  cases hl : s.cols.length with
  | zero => exact fun e he => Or.inl he
  | succ n => exact scanFrom_emits_shape sid pos rs n s

/-- C6 (amended): the addressing map of the dispatcher is — `init`
unicast to the new connection; `new-player` broadcast to all EXCEPT the
new connection; `collectible-update` broadcast to all connections
including the collector; `player-update` broadcast to all except the
mover; `player-disconnect` broadcast to all except the leaving
connection. -/
theorem broadcast_addressing :
    (∀ (sid : String) (r : Rand) (w : World), ∀ e ∈ (handleConnect sid r w).2,
      (e.addr = Addr.toSender ∧ ∃ ps cs, e.msg = EventMsg.init sid ps cs) ∨
      (e.addr = Addr.exceptSender ∧ ∃ p, e.msg = EventMsg.newPlayer p))
    ∧ (∀ (sid : String) (d : MoveData) (rs : ℕ → Rand) (w : World),
      ∀ e ∈ (handleMovement sid d rs w).2,
      (e.addr = Addr.all ∧
        ∃ cid c sc, e.msg = EventMsg.collectibleUpdate cid c sid sc) ∨
      (e.addr = Addr.exceptSender ∧
        ∃ x y sc, e.msg = EventMsg.playerUpdate sid x y sc))
    ∧ (∀ (sid : String) (w : World), ∀ e ∈ (handleDisconnect sid w).2,
      e.addr = Addr.exceptSender ∧ e.msg = EventMsg.playerDisconnect sid) := by
  refine ⟨?_, ?_, ?_⟩
  · intro sid r w e he
    simp only [handleConnect, List.mem_cons, List.mem_singleton] at he
    rcases he with he | he | he
    · subst he
      exact Or.inl ⟨rfl, _, _, rfl⟩
    · subst he
      exact Or.inr ⟨rfl, _, rfl⟩
    · cases he
  · intro sid d rs w e he
    cases hp : findPlayer w.players sid with
    | none =>
      have : handleMovement sid d rs w = (w, []) := by
        unfold handleMovement
        rw [hp]
      rw [this] at he
      cases he
    | some p =>
      rw [handleMovement_found sid d rs w p hp] at he
      simp only [] at he
      rcases List.mem_append.mp he with he | he
      · rcases runScan_emits_shape sid _ rs _ e he with h | h
        · cases h
        · exact Or.inl h
      · simp only [List.mem_singleton] at he
        subst he
        exact Or.inr ⟨rfl, _, _, _, rfl⟩
  · intro sid w e he
    simp only [handleDisconnect, List.mem_singleton] at he
    subst he
    exact ⟨rfl, rfl⟩

/-- Witness for C6: the single emission of a concrete disconnect event is
`player-disconnect` addressed to all connections except the sender. -/
theorem broadcast_addressing_witness :
    (Emit.mk Addr.exceptSender (EventMsg.playerDisconnect "a")).addr = Addr.exceptSender ∧
    (Emit.mk Addr.exceptSender (EventMsg.playerDisconnect "a")).msg =
      EventMsg.playerDisconnect "a" :=
  broadcast_addressing.2.2 "a" wA ⟨Addr.exceptSender, EventMsg.playerDisconnect "a"⟩
    (by simp [handleDisconnect])

/-- C6 counterexample: the claim that `new-player` and `player-disconnect`
are broadcast to every connection is false — both are emitted with
`socket.broadcast.emit`, i.e. to all connections except the sender, as a
concrete connect and disconnect show. -/
theorem broadcast_addressing_cex :
    ((handleConnect "b" ⟨1, 2, 3⟩ wA).2.map Emit.addr =
      [Addr.toSender, Addr.exceptSender])
    ∧ ((handleConnect "b" ⟨1, 2, 3⟩ wA).2[1]?.map
        (fun e => match e.msg with
          | EventMsg.newPlayer _ => true
          | _ => false) = some true)
    ∧ ((handleDisconnect "a" wA).2 =
        [⟨Addr.exceptSender, EventMsg.playerDisconnect "a"⟩])
    ∧ Addr.exceptSender ≠ Addr.all := by
  refine ⟨rfl, rfl, ?_, by decide⟩
  simp [handleDisconnect]

/-- C7: a movement event for an id absent from the store returns the
world unchanged and emits nothing; a disconnect for an absent id (a
double-disconnect) leaves the world unchanged, raises no error, and sends
nothing to the referencing client (its only emission is addressed to the
other connections). -/
theorem missing_player_noop :
    (∀ (sid : String) (d : MoveData) (rs : ℕ → Rand) (w : World),
      findPlayer w.players sid = none → handleMovement sid d rs w = (w, []))
    ∧ (∀ (sid : String) (w : World), findPlayer w.players sid = none →
      (handleDisconnect sid w).1 = w ∧
      ∀ e ∈ (handleDisconnect sid w).2, ¬ e.addr = Addr.toSender) := by
  constructor
  · intro sid d rs w h
    unfold handleMovement
    rw [h]
  · intro sid w h
    have hf : w.players.filter (fun p => ¬ p.id = sid) = w.players := by
      rw [List.filter_eq_self]
      intro a ha
      have := List.find?_eq_none.mp h a ha
      simpa using this
    constructor
    · unfold handleDisconnect
      simp only []
      rw [hf]
    · intro e he
      simp only [handleDisconnect, List.mem_singleton] at he
      subst he
      exact fun hcontra => Addr.noConfusion hcontra

/-- Witness for C7: a movement event for the unknown id "z" leaves the
concrete world `wA` unchanged and emits nothing. -/
theorem missing_player_noop_witness :
    handleMovement "z" ⟨none, none, none, none⟩ rsFix wA = (wA, []) :=
  missing_player_noop.1 "z" ⟨none, none, none, none⟩ rsFix wA rfl

theorem updatePos_malformed (pos : ℚ × ℚ) (d : MoveData)
    (hxy : d.x? = none ∨ d.y? = none) (hdir : d.direction = none) :
    updatePos pos d = pos := by
  unfold updatePos
  rcases hdx : d.x? with _ | dx <;> rcases hdy : d.y? with _ | dy <;>
    simp only [hdir] <;> try rfl
  rcases hxy with h | h
  · rw [hdx] at h
    cases h
  · rw [hdy] at h
    cases h

/-- C8: a malformed movement intent for a connected player — one carrying
neither both absolute fields nor a recognized direction — leaves the
player's position exactly unchanged, and the handler emits nothing
addressed to the originating client (in particular no error). -/
theorem malformed_intent_unchanged (sid : String) (d : MoveData) (rs : ℕ → Rand)
    (w : World) (p q : Player)
    (hp : findPlayer w.players sid = some p)
    (hxy : d.x? = none ∨ d.y? = none) (hdir : d.direction = none)
    (hq : findPlayer (handleMovement sid d rs w).1.players sid = some q) :
    q.x = p.x ∧ q.y = p.y ∧
    ∀ e ∈ (handleMovement sid d rs w).2, ¬ e.addr = Addr.toSender := by
  have hup : updatePos (p.x, p.y) d = (p.x, p.y) := updatePos_malformed _ d hxy hdir
  have hid : p.id = sid := findPlayer_id hp
  rw [handleMovement_found sid d rs w p hp] at hq
  simp only [hup] at hq
  rw [findPlayer_setPlayer_self hp (by simpa using hid)] at hq
  obtain ⟨rfl⟩ := hq
  refine ⟨rfl, rfl, ?_⟩
  intro e he
  rw [handleMovement_found sid d rs w p hp] at he
  simp only [] at he
  rcases List.mem_append.mp he with he | he
  · rcases runScan_emits_shape sid _ rs _ e he with h | h
    · cases h
    · rw [h.1]
      exact fun hcontra => Addr.noConfusion hcontra
  · simp only [List.mem_singleton] at he
    subst he
    exact fun hcontra => Addr.noConfusion hcontra

/-- Witness for C8: an intent with only `x` present and no direction
leaves the concrete player of `wA` at (100, 300). -/
theorem malformed_intent_unchanged_witness :
    (Player.mk 100 300 0 "a").x = (Player.mk 100 300 0 "a").x ∧
    (Player.mk 100 300 0 "a").y = (Player.mk 100 300 0 "a").y :=
  ⟨(malformed_intent_unchanged "a" ⟨some 600, none, none, none⟩ rsFix wA
      ⟨100, 300, 0, "a"⟩ ⟨100, 300, 0, "a"⟩ rfl (Or.inr rfl) rfl rfl).1,
   (malformed_intent_unchanged "a" ⟨some 600, none, none, none⟩ rsFix wA
      ⟨100, 300, 0, "a"⟩ ⟨100, 300, 0, "a"⟩ rfl (Or.inr rfl) rfl rfl).2.1⟩

theorem collectedIds_append (l1 l2 : List Emit) :
    collectedIds (l1 ++ l2) = collectedIds l1 ++ collectedIds l2 := by
  unfold collectedIds
  exact List.filterMap_append l1 l2 _

theorem scanStep_collected (sid : String) (pos : ℚ × ℚ) (rs : ℕ → Rand)
    (k : ℕ) (s : ScanState) :
    collectedIds (scanStep sid pos rs k s).emits =
      collectedIds s.emits ++
        (match s.cols[k]? with
          | some c => if collides pos c then [c.id] else []
          | none => []) := by
  unfold scanStep
  cases hk : s.cols[k]? with
  | none => simp
  | some c =>
    by_cases hc : collides pos c
    · simp [hc, collectedIds_append, collectedIds]
    · simp [hc]

theorem scanStep_cols_take (sid : String) (pos : ℚ × ℚ) (rs : ℕ → Rand)
    (k : ℕ) (s : ScanState) (m : ℕ) (hm : m ≤ k) :
    (scanStep sid pos rs k s).cols.take m = s.cols.take m := by
  unfold scanStep
  cases hk : s.cols[k]? with
  | none => rfl
  | some c =>
    by_cases hc : collides pos c
    · simp only [hc, if_true]
      have hklt : k < s.cols.length := (List.getElem?_eq_some.mp hk).1
      have hlen : m ≤ (s.cols.eraseIdx k).length := by
        rw [List.length_eraseIdx, if_pos hklt]
        omega
      rw [List.take_append_of_le_length hlen]
      rw [List.eraseIdx_eq_take_drop_succ]
      have hlen2 : m ≤ (s.cols.take k).length := by
        rw [List.length_take]
        omega
      rw [List.take_append_of_le_length hlen2, List.take_take]
      congr 1
      omega
    · simp [hc]

theorem scanFrom_collected_sublist (sid : String) (pos : ℚ × ℚ) (rs : ℕ → Rand) :
    ∀ (k : ℕ) (s : ScanState),
      List.Sublist (collectedIds (scanFrom sid pos rs k s).emits)
        (collectedIds s.emits ++
          ((s.cols.take (k + 1)).map (fun c => c.id)).reverse) := by
  intro k
  induction k with
  | zero =>
    intro s
    show List.Sublist (collectedIds (scanStep sid pos rs 0 s).emits) _
    rw [scanStep_collected]
    cases h0 : s.cols[0]? with
    | none =>
      rw [List.append_nil]
      exact List.sublist_append_left _ _
    | some c =>
      have htake : s.cols.take 1 = [c] := by
        rw [List.take_succ, h0]
        rfl
      rw [htake]
      by_cases hc : collides pos c
      · have hd : (match some c with
            | some c => if collides pos c = true then [c.id] else []
            | none => ([] : List ℕ)) = [c.id] := by simp [hc]
        rw [hd]
        simp only [List.map_cons, List.map_nil, List.reverse_singleton]
        exact List.Sublist.refl _
      · have hd : (match some c with
            | some c => if collides pos c = true then [c.id] else []
            | none => ([] : List ℕ)) = [] := by simp [hc]
        rw [hd, List.append_nil]
        exact List.sublist_append_left _ _
  | succ k ih =>
    intro s
    show List.Sublist
      (collectedIds (scanFrom sid pos rs k (scanStep sid pos rs (k + 1) s)).emits) _
    refine (ih (scanStep sid pos rs (k + 1) s)).trans ?_
    rw [scanStep_cols_take sid pos rs (k + 1) s (k + 1) (le_refl _)]
    rw [scanStep_collected]
    cases h : s.cols[k + 1]? with
    | none =>
      have htake : s.cols.take (k + 2) = s.cols.take (k + 1) := by
        rw [List.take_succ, h]
        simp
      rw [htake]
      simp only [List.append_nil]
      exact List.Sublist.refl _
    | some c =>
      have htake : s.cols.take (k + 2) = s.cols.take (k + 1) ++ [c] := by
        rw [List.take_succ, h]
        rfl
      rw [htake, List.map_append, List.reverse_append]
      simp only [List.map_cons, List.map_nil, List.reverse_singleton]
      rw [List.append_assoc]
      rw [List.singleton_append]
      apply (List.append_sublist_append_left _).mpr
      by_cases hc : collides pos c
      · rw [if_pos hc]
        exact List.Sublist.refl _
      · rw [if_neg hc]
        exact List.Sublist.cons _ (List.Sublist.refl _)

theorem runScan_collected_sublist (sid : String) (pos : ℚ × ℚ) (rs : ℕ → Rand)
    (s : ScanState) :
    List.Sublist (collectedIds (runScan sid pos rs s).emits)
      (collectedIds s.emits ++ (s.cols.map (fun c => c.id)).reverse) := by
  unfold runScan
  cases hl : s.cols.length with
  | zero =>
    simp only []
    exact List.sublist_append_left _ _
  | succ n =>
    simp only []
    have := scanFrom_collected_sublist sid pos rs n s
    rwa [show n + 1 = s.cols.length from hl.symm, List.take_length] at this

theorem scanStep_nid_le (sid : String) (pos : ℚ × ℚ) (rs : ℕ → Rand)
    (k : ℕ) (s : ScanState) : s.nid ≤ (scanStep sid pos rs k s).nid := by
  unfold scanStep
  cases hk : s.cols[k]? with
  | none => exact le_refl _
  | some c =>
    by_cases hc : collides pos c
    · simp [hc, createCollectible]
    · simp [hc]

theorem scanStep_cols_from (sid : String) (pos : ℚ × ℚ) (rs : ℕ → Rand)
    (k : ℕ) (s : ScanState) :
    ∀ c ∈ (scanStep sid pos rs k s).cols, c ∈ s.cols ∨ c.id = s.nid := by
  unfold scanStep
  cases hk : s.cols[k]? with
  | none => exact fun c hc => Or.inl hc
  | some c0 =>
    by_cases hc : collides pos c0
    · intro c hcm
      simp only [hc, if_true] at hcm
      rcases List.mem_append.mp hcm with hcm | hcm
      · exact Or.inl ((List.eraseIdx_sublist _ _).mem hcm)
      · simp only [List.mem_singleton] at hcm
        subst hcm
        exact Or.inr rfl
    · intro c hcm
      simp only [hc, if_false] at hcm
      exact Or.inl (by simpa using hcm)

theorem scanFrom_cols_from (sid : String) (pos : ℚ × ℚ) (rs : ℕ → Rand) :
    ∀ (k : ℕ) (s : ScanState),
      ∀ c ∈ (scanFrom sid pos rs k s).cols, c ∈ s.cols ∨ s.nid ≤ c.id := by
  intro k
  induction k with
  | zero =>
    intro s c hc
    rcases scanStep_cols_from sid pos rs 0 s c hc with h | h
    · exact Or.inl h
    · exact Or.inr (le_of_eq h.symm)
  | succ k ih =>
    intro s c hc
    rcases ih (scanStep sid pos rs (k + 1) s) c hc with h | h
    · rcases scanStep_cols_from sid pos rs (k + 1) s c h with h2 | h2
      · exact Or.inl h2
      · exact Or.inr (le_of_eq h2.symm)
    · exact Or.inr (le_trans (scanStep_nid_le sid pos rs (k + 1) s) h)

theorem runScan_cols_from (sid : String) (pos : ℚ × ℚ) (rs : ℕ → Rand)
    (s : ScanState) :
    ∀ c ∈ (runScan sid pos rs s).cols, c ∈ s.cols ∨ s.nid ≤ c.id := by
  unfold runScan
  cases hl : s.cols.length with
  | zero => exact fun c hc => Or.inl hc
  | succ n => exact scanFrom_cols_from sid pos rs n s

theorem scanStep_idslt (sid : String) (pos : ℚ × ℚ) (rs : ℕ → Rand)
    (k : ℕ) (s : ScanState) (h : ∀ c ∈ s.cols, c.id < s.nid) :
    ∀ c ∈ (scanStep sid pos rs k s).cols, c.id < (scanStep sid pos rs k s).nid := by
  unfold scanStep
  cases hk : s.cols[k]? with
  | none => exact h
  | some c0 =>
    by_cases hc : collides pos c0
    · intro c hcm
      simp only [hc, if_true] at hcm ⊢
      simp only [createCollectible]
      rcases List.mem_append.mp hcm with hcm | hcm
      · exact lt_trans (h c ((List.eraseIdx_sublist _ _).mem hcm)) (by omega)
      · simp only [List.mem_singleton] at hcm
        subst hcm
        simp [createCollectible]
    · intro c hcm
      simp only [hc, if_false] at hcm ⊢
      exact h c (by simpa using hcm)

theorem scanFrom_idslt (sid : String) (pos : ℚ × ℚ) (rs : ℕ → Rand) :
    ∀ (k : ℕ) (s : ScanState), (∀ c ∈ s.cols, c.id < s.nid) →
      ∀ c ∈ (scanFrom sid pos rs k s).cols, c.id < (scanFrom sid pos rs k s).nid := by
  intro k
  induction k with
  | zero => exact fun s h => scanStep_idslt sid pos rs 0 s h
  | succ k ih =>
    intro s h
    exact ih _ (scanStep_idslt sid pos rs (k + 1) s h)

theorem runScan_idslt (sid : String) (pos : ℚ × ℚ) (rs : ℕ → Rand)
    (s : ScanState) (h : ∀ c ∈ s.cols, c.id < s.nid) :
    ∀ c ∈ (runScan sid pos rs s).cols, c.id < (runScan sid pos rs s).nid := by
  unfold runScan
  cases hl : s.cols.length with
  | zero => exact h
  | succ n => exact scanFrom_idslt sid pos rs n s h

theorem initWorld_idslt (rs : ℕ → Rand) : IdsLt (initWorld rs) := by
  intro c hc
  simp [initWorld, initCollectibles, createCollectible] at hc ⊢
  rcases hc with hc | hc | hc <;> subst hc <;> simp

theorem stepEvent_idslt (e : GEvent) (w : World) (h : IdsLt w) :
    IdsLt (stepEvent e w).1 := by
  cases e with
  | connect sid r => exact h
  | disconnect sid => exact h
  | movement sid d rs =>
    show IdsLt (handleMovement sid d rs w).1
    unfold handleMovement
    cases hp : findPlayer w.players sid with
    | none => exact h
    | some p =>
      intro c hc
      exact runScan_idslt sid _ rs _ (fun c hc => h c hc) c hc

theorem runEvents_idslt (rs : ℕ → Rand) (es : List GEvent) :
    IdsLt (runEvents es (initWorld rs)) := by
  suffices haux : ∀ (es : List GEvent) (w : World), IdsLt w → IdsLt (runEvents es w) from
    haux es _ (initWorld_idslt rs)
  intro es
  induction es with
  | nil => exact fun w h => h
  | cons e es ih =>
    intro w h
    show IdsLt (runEvents es (stepEvent e w).1)
    exact ih _ (stepEvent_idslt e w h)

/-- C9: within one movement event the collision scan collects only
collectibles that were in the store when the scan began — the collected
ids form a subsequence of the original store's ids (each examined at most
once, in descending index order); in any reachable world the collected
ids are all below the id counter while every collectible added during the
event carries an id at or above the counter, so a replacement spawned
during the event is never collected in that same event. -/
theorem scan_touches_originals_only :
    (∀ (sid : String) (d : MoveData) (rs : ℕ → Rand) (w : World) (p : Player),
      findPlayer w.players sid = some p →
      List.Sublist (collectedIds (handleMovement sid d rs w).2)
          ((w.collectibles.map (fun c => c.id)).reverse)
      ∧ (IdsLt w →
          ∀ i ∈ collectedIds (handleMovement sid d rs w).2, i < w.nextCollectibleId)
      ∧ (∀ c ∈ (handleMovement sid d rs w).1.collectibles,
          c ∈ w.collectibles ∨ w.nextCollectibleId ≤ c.id))
    ∧ (∀ (rs : ℕ → Rand) (es : List GEvent), IdsLt (runEvents es (initWorld rs))) := by
  constructor
  · intro sid d rs w p hp
    have hsub : List.Sublist (collectedIds (handleMovement sid d rs w).2)
        ((w.collectibles.map (fun c => c.id)).reverse) := by
      rw [handleMovement_found sid d rs w p hp]
      simp only []
      rw [collectedIds_append]
      have h2 : collectedIds
          [(⟨Addr.exceptSender, EventMsg.playerUpdate sid (updatePos (p.x, p.y) d).1
            (updatePos (p.x, p.y) d).2 (runScan sid (updatePos (p.x, p.y) d) rs
              { cols := w.collectibles, score := p.score,
                nid := w.nextCollectibleId, used := 0, emits := [] }).score⟩ : Emit)]
          = [] := rfl
      rw [h2, List.append_nil]
      have := runScan_collected_sublist sid (updatePos (p.x, p.y) d) rs
        { cols := w.collectibles, score := p.score,
          nid := w.nextCollectibleId, used := 0, emits := [] }
      simpa using this
    refine ⟨hsub, ?_, ?_⟩
    · intro hids i hi
      have hmem : i ∈ (w.collectibles.map (fun c => c.id)).reverse := hsub.mem hi
      rw [List.mem_reverse] at hmem
      obtain ⟨c, hc, rfl⟩ := List.mem_map.mp hmem
      exact hids c hc
    · intro c hc
      rw [handleMovement_found sid d rs w p hp] at hc
      simp only [] at hc
      exact runScan_cols_from sid _ rs _ c hc
  · exact runEvents_idslt

/-- Witness for C9: for a concrete movement with a pickup, the collected
ids form a subsequence of the reversed original id list. -/
theorem scan_touches_originals_only_witness :
    List.Sublist
      (collectedIds (handleMovement "a" ⟨some 600, some 20, none, none⟩ rsFix wB).2)
      ((wB.collectibles.map (fun c => c.id)).reverse) :=
  (scan_touches_originals_only.1 "a" ⟨some 600, some 20, none, none⟩ rsFix wB
    ⟨100, 300, 0, "a"⟩ rfl).1

/-- C10: when the movement intent's speed field is absent or zero (the
falsy numeric values), the relative-mode fallback moves the player with
the default speed of 4 — the update equals the one with speed 4, and away
from the clamping boundary the displacement along the named direction is
exactly 4 units, not 0. -/
theorem default_speed_applies (pos : ℚ × ℚ) (d : MoveData) (dir : Direction)
    (hdir : d.direction = some dir)
    (hs : d.speed? = none ∨ d.speed? = some 0) :
    effSpeed d = 4
    ∧ updatePos pos d = updatePos pos ⟨d.x?, d.y?, some dir, some 4⟩
    ∧ ((d.x? = none ∨ d.y? = none) →
        (dir = Direction.up → 24 ≤ pos.2 →
          updatePos pos d = (pos.1, pos.2 - 4) ∧ (updatePos pos d).2 ≠ pos.2)
        ∧ (dir = Direction.down → pos.2 ≤ 456 →
          updatePos pos d = (pos.1, pos.2 + 4) ∧ (updatePos pos d).2 ≠ pos.2)
        ∧ (dir = Direction.left → 24 ≤ pos.1 →
          updatePos pos d = (pos.1 - 4, pos.2) ∧ (updatePos pos d).1 ≠ pos.1)
        ∧ (dir = Direction.right → pos.1 ≤ 616 →
          updatePos pos d = (pos.1 + 4, pos.2) ∧ (updatePos pos d).1 ≠ pos.1)) := by
  have heff : effSpeed d = 4 := by
    rcases hs with h | h <;> simp [effSpeed, h]
  refine ⟨heff, ?_, ?_⟩
  · unfold updatePos
    rcases hdx : d.x? with _ | dx <;> rcases hdy : d.y? with _ | dy <;>
      simp only [hdir, heff] <;>
      simp [effSpeed]
  · intro hxy
    have hgen : updatePos pos d =
        (match dir with
          | Direction.up => (pos.1, max 20 (pos.2 - 4))
          | Direction.down => (pos.1, min 460 (pos.2 + 4))
          | Direction.left => (max 20 (pos.1 - 4), pos.2)
          | Direction.right => (min 620 (pos.1 + 4), pos.2)) := by
      unfold updatePos
      rcases hdx : d.x? with _ | dx <;> rcases hdy : d.y? with _ | dy <;>
        simp only [hdir, heff]
      · cases dir <;> rfl
      · cases dir <;> rfl
      · cases dir <;> rfl
      · rcases hxy with h | h
        · rw [hdx] at h
          cases h
        · rw [hdy] at h
          cases h
    refine ⟨?_, ?_, ?_, ?_⟩
    · intro hd hroom
      subst hd
      rw [hgen]
      simp only []
      have hmax : max 20 (pos.2 - 4) = pos.2 - 4 := max_eq_right (by linarith)
      rw [hmax]
      exact ⟨rfl, by intro hcontra; have h4 : pos.2 - 4 = pos.2 := hcontra; linarith⟩
    · intro hd hroom
      subst hd
      rw [hgen]
      simp only []
      have hmin : min 460 (pos.2 + 4) = pos.2 + 4 := min_eq_right (by linarith)
      rw [hmin]
      exact ⟨rfl, by intro hcontra; have h4 : pos.2 + 4 = pos.2 := hcontra; linarith⟩
    · intro hd hroom
      subst hd
      rw [hgen]
      simp only []
      have hmax : max 20 (pos.1 - 4) = pos.1 - 4 := max_eq_right (by linarith)
      rw [hmax]
      exact ⟨rfl, by intro hcontra; have h4 : pos.1 - 4 = pos.1 := hcontra; linarith⟩
    · intro hd hroom
      subst hd
      rw [hgen]
      simp only []
      have hmin : min 620 (pos.1 + 4) = pos.1 + 4 := min_eq_right (by linarith)
      rw [hmin]
      exact ⟨rfl, by intro hcontra; have h4 : pos.1 + 4 = pos.1 := hcontra; linarith⟩

/-- Witness for C10: an `up` intent with no speed field moves the player
at (100, 300) to (100, 296), a displacement of exactly 4. -/
theorem default_speed_applies_witness :
    updatePos ((100 : ℚ), (300 : ℚ)) ⟨none, none, some Direction.up, none⟩ =
      ((100 : ℚ), (300 : ℚ) - 4) ∧
    (updatePos ((100 : ℚ), (300 : ℚ)) ⟨none, none, some Direction.up, none⟩).2 ≠
      (300 : ℚ) :=
  ((default_speed_applies ((100 : ℚ), (300 : ℚ))
      ⟨none, none, some Direction.up, none⟩ Direction.up rfl (Or.inl rfl)).2.2
    (Or.inl rfl)).1 rfl (by norm_num)

end Game
